import Mathlib

/-!
# Verification of the `librpma_client` fio I/O engine

A shallow embedding of `src/engines/librpma_client.c` (the client side of the
librpma-based RDMA I/O engine for the fio benchmarking harness), together with
proofs about the request lifecycle, the capability handshake, depth
enforcement, completion processing and error handling.

Machine integers are modelled as `Nat` with explicit reduction modulo `2^w`
where the C code can overflow.  Fallible C functions returning `0`/`1` are
modelled as functions returning a `Bool` error flag alongside the (possibly
mutated) engine state, mirroring the in-place mutation of
`struct librpmaio_data` by the C code.
-/

namespace LibrpmaClient

/-! ## Constants from the source -/

/-- `#define FIO_RDMA_MAX_IO_DEPTH 512`.  Also used as the sentinel work-request
id reserved for control messages. -/
def FIO_RDMA_MAX_IO_DEPTH : Nat := 512

/-- `#define KILOBYTE 1024`. -/
def KILOBYTE : Nat := 1024

/-- `enum librpma_io_mode` values. -/
def FIO_RDMA_UNKNOWN : Nat := 0
def FIO_RDMA_MEM_WRITE : Nat := 1
def FIO_RDMA_MEM_READ : Nat := 2
def FIO_RDMA_CHA_SEND : Nat := 3
def FIO_RDMA_CHA_RECV : Nat := 4

/-- fio data directions (`enum fio_ddir`): `DDIR_READ = 0`, `DDIR_WRITE = 1`. -/
def DDIR_READ : Nat := 0
def DDIR_WRITE : Nat := 1

/-! ## Byte order

The control-message integers travel in network byte order; the code applies
`htonl`/`ntohl` (and `__be64_to_cpu`).  On the little-endian hosts this engine
targets these are the 32-bit (resp. 64-bit) byte swap. -/

/-- 32-bit byte swap: the action of `htonl`/`ntohl` on a value `< 2^32`. -/
def byteswap32 (x : Nat) : Nat :=
  (x % 256) * 16777216 + (x / 256 % 256) * 65536 +
    (x / 65536 % 256) * 256 + (x / 16777216 % 256)

def htonl (x : Nat) : Nat := byteswap32 x
def ntohl (x : Nat) : Nat := byteswap32 x

/-- 64-bit byte swap: the action of `__be64_to_cpu` on a value `< 2^64`. -/
def byteswap64 (x : Nat) : Nat :=
  byteswap32 (x % 4294967296) * 4294967296 + byteswap32 (x / 4294967296 % 4294967296)

/-! ## Data model

The fields of `struct librpmaio_data`, `struct librpma_info_blk`,
`struct remote_u`, `struct io_u` and `struct ibv_wc` that the engine logic
touches. -/

/-- `struct remote_u`: a remote memory descriptor (fields as 64- and 32-bit
unsigned integers; in `recv_buf` they are stored in network byte order). -/
structure RemoteU where
  buf : Nat
  rkey : Nat
  size : Nat
  deriving DecidableEq, Repr

/-- `struct librpma_info_blk`: the fixed-format control message.  `rmt_us` is a
fixed array of `FIO_RDMA_MAX_IO_DEPTH` entries in C; we model it as a list
(the C array's contents). -/
structure LibrpmaInfoBlk where
  mode : Nat
  nr : Nat
  max_bs : Nat
  rmt_us : List RemoteU
  deriving DecidableEq, Repr

/-- `sizeof(struct librpma_info_blk)`: three `uint32_t` fields (12 bytes),
4 bytes of padding to the 8-byte alignment of `struct remote_u`, then
512 entries of 16 bytes each. -/
def ctrlMsgSize : Nat := 16 + FIO_RDMA_MAX_IO_DEPTH * 16

/-- The fields of fio's `struct io_u` the engine reads or writes, plus the
engine-assigned correlation id (`librpma_io_u_data.wr_id`, copied by
`fio_librpmaio_prep` into both `sq_wr.wr_id` and `rq_wr.wr_id`). -/
structure IoU where
  wrId : Nat
  ddir : Nat
  buflen : Nat
  resid : Nat
  error : Nat
  deriving DecidableEq, Repr

/-- `struct ibv_wc` completion-record opcodes used by the handler. -/
inductive WcOpcode where
  | recv
  | send
  | rdmaWrite
  | rdmaRead
  | other
  deriving DecidableEq, Repr

/-- The fields of `struct ibv_wc` the handler reads. -/
structure IbvWc where
  wr_id : Nat
  opcode : WcOpcode
  byte_len : Nat
  status : Nat
  deriving DecidableEq, Repr

/-- The fields of `td->o` (thread options) the engine reads. -/
structure ThreadOptions where
  iodepth : Nat
  max_bs_read : Nat
  max_bs_write : Nat
  deriving DecidableEq, Repr

/-- The state-bearing fields of `struct librpmaio_data`.  The three request
collections are the arrays `io_us_queued`/`io_us_flight`/`io_us_completed`
with their counters, modelled as lists. -/
structure LibrpmaioData where
  ioUsQueued : List IoU
  ioUsFlight : List IoU
  ioUsCompleted : List IoU
  dst_offset : Nat
  is_client : Bool
  librpma_protocol : Nat
  recv_buf : LibrpmaInfoBlk
  send_buf : LibrpmaInfoBlk
  rmt_us : List RemoteU
  rmt_nr : Nat
  cq_event_num : Nat
  deriving DecidableEq, Repr

/-! ## fio queue-status results -/

inductive FioQStatus where
  | completed
  | queued
  | busy
  deriving DecidableEq, Repr

/-- The arguments of one `rpma_write` call issued by the engine:
`(dst_offset, src_offset, len)`. -/
structure RpmaWriteCall where
  dst_offset : Nat
  src_offset : Nat
  len : Nat
  deriving DecidableEq, Repr

/-! ## `fio_librpmaio_queue` (submit) -/

/-- `fio_librpmaio_queue`: returns `FIO_Q_BUSY` when the queued collection is
at `td->o.iodepth`; otherwise appends the unit to the queued collection and
— for `DDIR_WRITE` — issues `rpma_write(conn, recv_mr, dst_offset, send_mr,
0, KILOBYTE, ...)`, then returns `FIO_Q_QUEUED`.  The result carries the
status, the new state and the `rpma_write` call made (if any). -/
def fio_librpmaio_queue (o : ThreadOptions) (rd : LibrpmaioData) (io_u : IoU) :
    FioQStatus × LibrpmaioData × Option RpmaWriteCall :=
  if rd.ioUsQueued.length = o.iodepth then
    (.busy, rd, none)
  else
    let rd' := { rd with ioUsQueued := rd.ioUsQueued ++ [io_u] }
    if io_u.ddir = DDIR_WRITE then
      (.queued, rd', some ⟨rd.dst_offset, 0, KILOBYTE⟩)
    else
      (.queued, rd', none)

/-! ## `fio_librpmaio_event` (retrieve completed) -/

/-- `fio_librpmaio_event`: returns `io_us_completed[0]`, shifts every later
entry one slot toward the front and decrements the completed counter.  The
C code indexes the array unconditionally; the model is defined only for a
non-empty completed collection (`none` marks the out-of-contract call). -/
def fio_librpmaio_event (rd : LibrpmaioData) : Option (IoU × LibrpmaioData) :=
  match rd.ioUsCompleted with
  | [] => none
  | io_u :: rest => some (io_u, { rd with ioUsCompleted := rest })

/-! ## `client_recv` and `server_recv` -/

/-- Decode one `struct remote_u` received in network byte order, as
`client_recv` does (`__be64_to_cpu` on `buf`, `ntohl` on `rkey`/`size`). -/
def decodeRemoteU (r : RemoteU) : RemoteU :=
  ⟨byteswap64 r.buf, ntohl r.rkey, ntohl r.size⟩

/-- `client_recv`: on an inbound control message, reject a payload whose size
differs from `sizeof(recv_buf)`; reject a server `max_bs` smaller than the
client's `max(o.max_bs[DDIR_READ], o.max_bs[DDIR_WRITE])`; then, for the
memory-semantic modes, decode and store the remote descriptors.  Returns the
new state and an error flag (C returns `1` on error, `0` on success). -/
def client_recv (o : ThreadOptions) (rd : LibrpmaioData) (wc : IbvWc) :
    LibrpmaioData × Bool :=
  if wc.byte_len ≠ ctrlMsgSize then
    (rd, true)
  else
    let max_bs := max o.max_bs_read o.max_bs_write
    if max_bs > ntohl rd.recv_buf.max_bs then
      (rd, true)
    else if rd.librpma_protocol = FIO_RDMA_MEM_WRITE ∨
            rd.librpma_protocol = FIO_RDMA_MEM_READ then
      let n := ntohl rd.recv_buf.nr
      ({ rd with
          rmt_nr := n,
          rmt_us := (rd.recv_buf.rmt_us.take n).map decodeRemoteU
                      ++ rd.rmt_us.drop n }, false)
    else
      (rd, false)

/-- `server_recv`: only a control-sentinel completion is examined; it stores
the peer's mode (flipping `CHA_SEND` to `CHA_RECV`) and then rejects a peer
`max_bs` larger than the local one.  Note the mode is stored *before* the
check, so the mutation survives the error return, as in the C code. -/
def server_recv (o : ThreadOptions) (rd : LibrpmaioData) (wc : IbvWc) :
    LibrpmaioData × Bool :=
  if wc.wr_id = FIO_RDMA_MAX_IO_DEPTH then
    let proto := ntohl rd.recv_buf.mode
    let proto := if proto = FIO_RDMA_CHA_SEND then FIO_RDMA_CHA_RECV else proto
    let rd := { rd with librpma_protocol := proto }
    let max_bs := max o.max_bs_read o.max_bs_write
    if max_bs < ntohl rd.recv_buf.max_bs then
      (rd, true)
    else
      (rd, false)
  else
    (rd, false)

instance : Inhabited IoU := ⟨⟨0, 0, 0, 0, 0⟩⟩

/-! ## `cq_event_handler` -/

/-- The linear scan of the in-flight collection for a matching correlation id
(`for (i = 0; i < rd->io_u_flight_nr; i++) if (wc.wr_id == ...wr_id)`):
index of the first match, if any. -/
def findFlightIdx : List IoU → Nat → Option Nat
  | [], _ => none
  | u :: rest, id =>
    if u.wrId = id then some 0 else (findFlightIdx rest id).map (· + 1)

/-- Swap-with-last removal from the in-flight array:
`io_us_flight[i] = io_us_flight[io_u_flight_nr - 1]; io_u_flight_nr--`. -/
def swapRemove {α : Type _} (l : List α) (i : Nat) : List α :=
  match l.getLast? with
  | none => l
  | some last => (l.set i last).dropLast

/-- `2^64`: `io_u->resid` is an unsigned 64-bit field, so the subtraction
`buflen - wc.byte_len` is taken modulo `2^64`. -/
def U64_MOD : Nat := 18446744073709551616

/-- The body of the `while (ibv_poll_cq(...) == 1)` loop of `cq_event_handler`
for one completion record whose status has already been checked: dispatch on
the opcode, feed `RECV` completions through `client_recv`/`server_recv`,
skip the control sentinel id, and otherwise match the id against the
in-flight collection, moving the matched unit (with its outcome, for `RECV`)
into the completed collection and swap-removing it from in-flight.  Returns
the new state and an error flag (`true` models `return -1`). -/
def handleWc (o : ThreadOptions) (rd : LibrpmaioData) (wc : IbvWc) :
    LibrpmaioData × Bool :=
  match wc.opcode with
  | .recv =>
    let r := if rd.is_client then client_recv o rd wc else server_recv o rd wc
    let rd1 := r.1
    if r.2 then (rd1, true)
    else if wc.wr_id = FIO_RDMA_MAX_IO_DEPTH then (rd1, false)
    else
      match findFlightIdx rd1.ioUsFlight wc.wr_id with
      | none => (rd1, false)
      | some i =>
        let u := rd1.ioUsFlight.getD i default
        let u' := { u with resid := (u.buflen + U64_MOD - wc.byte_len) % U64_MOD,
                           error := 0 }
        ({ rd1 with
            ioUsCompleted := rd1.ioUsCompleted ++ [u'],
            ioUsFlight := swapRemove rd1.ioUsFlight i }, false)
  | .send | .rdmaWrite | .rdmaRead =>
    if wc.wr_id = FIO_RDMA_MAX_IO_DEPTH then (rd, false)
    else
      match findFlightIdx rd.ioUsFlight wc.wr_id with
      | none => (rd, false)
      | some i =>
        let u := rd.ioUsFlight.getD i default
        ({ rd with
            ioUsCompleted := rd.ioUsCompleted ++ [u],
            ioUsFlight := swapRemove rd.ioUsFlight i }, false)
  | .other => (rd, true)

/-- `cq_event_handler`: drain the completion records one by one (the
`ibv_poll_cq` loop is modelled by the list of records the hardware would
deliver).  A non-success status aborts immediately with `-1`; otherwise each
record is handled and `cq_event_num` is bumped.  Returns the state as mutated
so far together with `-1` on error or the number of drained records. -/
def cq_event_handler (o : ThreadOptions) :
    LibrpmaioData → List IbvWc → Nat → LibrpmaioData × Int
  | rd, [], compevnum => (rd, (compevnum : Int))
  | rd, wc :: rest, compevnum =>
    if wc.status ≠ 0 then (rd, -1)
    else
      let r := handleWc o rd wc
      if r.2 then (r.1, -1)
      else
        cq_event_handler o { r.1 with cq_event_num := r.1.cq_event_num + 1 } rest
          (compevnum + 1)

/-! ## `fio_librpmaio_commit` -/

/-- The client-side `do { ... } while (rd->io_u_queued_nr)` loop of
`fio_librpmaio_commit`: each iteration posts an `rpma_flush`, takes `ret = 1`
and moves one queued unit into the in-flight collection
(`fio_librpmaio_queued` stamps its issue time; queued → flight), until the
queued counter reaches zero. -/
def commitLoop : List IoU → List IoU → List IoU × List IoU
  | [], flight => ([], flight)
  | io_u :: rest, flight => commitLoop rest (flight ++ [io_u])

/-- `fio_librpmaio_commit`: on the client side, drain the queued collection
into the in-flight collection (see `commitLoop`); otherwise the first
iteration takes `ret = 0` and breaks with nothing moved.  Returns the new
state and the C return value (`ret`, which is `0` on both paths). -/
def fio_librpmaio_commit (rd : LibrpmaioData) : LibrpmaioData × Int :=
  if rd.is_client then
    let qf := commitLoop rd.ioUsQueued rd.ioUsFlight
    ({ rd with ioUsQueued := qf.1, ioUsFlight := qf.2 }, 0)
  else
    (rd, 0)

/-! ## `fio_librpmaio_connect`, `fio_librpmaio_open_file` -/

/-- The observable verb-level actions of the connect path. -/
inductive ConnectOp where
  | rdmaConnect
  | postSend (msg : LibrpmaInfoBlk)
  | postRecv
  | pollWait (op : WcOpcode)
  | sleep
  deriving DecidableEq, Repr

/-- `fio_librpmaio_connect` (successful path): `rdma_connect`, wait for the
ESTABLISHED event, fill `send_buf.mode` and `send_buf.nr` (network byte
order) — `send_buf.max_bs` is never assigned anywhere in the engine, so it
keeps its `memset`-zero value — post the send, wait for its `SEND`
completion and for the server's `RECV` reply, then sleep 500 ms.  No receive
work request is posted by this engine.  Returns the new state and the action
trace. -/
def fio_librpmaio_connect (o : ThreadOptions) (rd : LibrpmaioData) :
    LibrpmaioData × List ConnectOp :=
  let sb := { rd.send_buf with
                mode := htonl rd.librpma_protocol,
                nr := htonl o.iodepth }
  ({ rd with send_buf := sb },
   [.rdmaConnect, .postSend sb, .pollWait .send, .pollWait .recv, .sleep])

inductive OpenFileAction where
  | accept
  | connect
  deriving DecidableEq, Repr

/-- `fio_librpmaio_open_file`: dispatches on `td_read(td)` (whether the job's
data direction includes reads): read jobs take the accepting path
(`fio_librpmaio_accept`), all others the connecting path
(`fio_librpmaio_connect`). -/
def fio_librpmaio_open_file (td_read : Bool) : OpenFileAction :=
  if td_read then .accept else .connect

/-! ## Request lifecycle

Requests are identified by their correlation id (`wr_id`); the three ordered
collections are `io_us_queued`, `io_us_flight` and `io_us_completed`. -/

/-- The correlation ids of a collection, in order. -/
def wrIds (l : List IoU) : List Nat := l.map IoU.wrId

/-- All correlation ids present in the engine, queued first, then in-flight,
then completed. -/
def allIds (rd : LibrpmaioData) : List Nat :=
  wrIds rd.ioUsQueued ++ (wrIds rd.ioUsFlight ++ wrIds rd.ioUsCompleted)

/-- Lifecycle invariant: no correlation id occurs twice across (or within)
the three collections — every request the engine holds sits in exactly one
of queued, in-flight, completed. -/
def lifecycleInv (rd : LibrpmaioData) : Prop := (allIds rd).Nodup

/-- The lifecycle stage of a correlation id: `0` queued, `1` in-flight,
`2` completed, `none` not held by the engine (the queued collection is
checked first, matching the forward direction of the lifecycle). -/
def stageOf (rd : LibrpmaioData) (id : Nat) : Option Nat :=
  if id ∈ wrIds rd.ioUsQueued then some 0
  else if id ∈ wrIds rd.ioUsFlight then some 1
  else if id ∈ wrIds rd.ioUsCompleted then some 2
  else none

/-- One harness-driven engine operation, as a relation between engine states:
submit (`fio_librpmaio_queue`, with a fresh correlation id — the harness
does not resubmit a request it has not retrieved), commit
(`fio_librpmaio_commit`), completion processing (`cq_event_handler` on the
records drained from the completion queue), and retrieve
(`fio_librpmaio_event`). -/
inductive EngineStep : LibrpmaioData → LibrpmaioData → Prop where
  | queue (o : ThreadOptions) (io_u : IoU) (rd : LibrpmaioData)
      (hfresh : io_u.wrId ∉ allIds rd) :
      EngineStep rd (fio_librpmaio_queue o rd io_u).2.1
  | commit (rd : LibrpmaioData) :
      EngineStep rd (fio_librpmaio_commit rd).1
  | poll (o : ThreadOptions) (wcs : List IbvWc) (n : Nat) (rd : LibrpmaioData) :
      EngineStep rd (cq_event_handler o rd wcs n).1
  | retrieve (rd rd' : LibrpmaioData) (u : IoU)
      (h : fio_librpmaio_event rd = some (u, rd')) :
      EngineStep rd rd'

/-- A freshly `memset`-zeroed engine state, as `fio_librpmaio_setup` produces
(`malloc` + `memset(rd, 0, sizeof(*rd))`).  Concrete states in the theorems
below override individual fields of it. -/
def baseState : LibrpmaioData :=
  { ioUsQueued := [], ioUsFlight := [], ioUsCompleted := [], dst_offset := 0,
    is_client := false, librpma_protocol := 0, recv_buf := ⟨0, 0, 0, []⟩,
    send_buf := ⟨0, 0, 0, []⟩, rmt_us := [], rmt_nr := 0, cq_event_num := 0 }

/-! ## Byte-order lemmas -/

theorem byteswap32_lt (x : Nat) : byteswap32 x < 4294967296 := by
  unfold byteswap32
  have h0 : x % 256 < 256 := Nat.mod_lt _ (by norm_num)
  have h1 : x / 256 % 256 < 256 := Nat.mod_lt _ (by norm_num)
  have h2 : x / 65536 % 256 < 256 := Nat.mod_lt _ (by norm_num)
  have h3 : x / 16777216 % 256 < 256 := Nat.mod_lt _ (by norm_num)
  omega

theorem byteswap32_involutive (x : Nat) (hx : x < 4294967296) :
    byteswap32 (byteswap32 x) = x := by
  have hdiv : ∀ q r : Nat, r < 256 → (256 * q + r) / 256 = q := by
    intro q r hr
    rw [Nat.mul_add_div (by norm_num : 0 < 256), Nat.div_eq_of_lt hr, Nat.add_zero]
  have hmod : ∀ q r : Nat, r < 256 → (256 * q + r) % 256 = r := by
    intro q r hr
    rw [Nat.mul_add_mod, Nat.mod_eq_of_lt hr]
  unfold byteswap32
  set b0 := x % 256 with hb0
  set b1 := x / 256 % 256 with hb1
  set b2 := x / 65536 % 256 with hb2
  set b3 := x / 16777216 % 256 with hb3
  have hlt0 : b0 < 256 := by omega
  have hlt1 : b1 < 256 := by omega
  have hlt2 : b2 < 256 := by omega
  have hlt3 : b3 < 256 := by omega
  have hy : b0 * 16777216 + b1 * 65536 + b2 * 256 + b3
      = 256 * (256 * (256 * b0 + b1) + b2) + b3 := by ring
  rw [hy]
  have e0 : (256 * (256 * (256 * b0 + b1) + b2) + b3) % 256 = b3 := hmod _ _ hlt3
  have e1 : (256 * (256 * (256 * b0 + b1) + b2) + b3) / 256
      = 256 * (256 * b0 + b1) + b2 := hdiv _ _ hlt3
  have e2 : (256 * (256 * (256 * b0 + b1) + b2) + b3) / 65536 = 256 * b0 + b1 := by
    have h65536 : (65536 : Nat) = 256 * 256 := by norm_num
    rw [h65536, ← Nat.div_div_eq_div_mul, e1]
    exact hdiv _ _ hlt2
  have e3 : (256 * (256 * (256 * b0 + b1) + b2) + b3) / 16777216 = b0 := by
    have h16777216 : (16777216 : Nat) = 65536 * 256 := by norm_num
    rw [h16777216, ← Nat.div_div_eq_div_mul, e2]
    exact hdiv _ _ hlt1
  rw [e0, e1, e2, e3, hmod _ _ hlt2, hmod _ _ hlt1, Nat.mod_eq_of_lt hlt0]
  clear e0 e1 e2 e3 hy hdiv hmod
  omega

theorem ntohl_htonl (x : Nat) (hx : x < 4294967296) : ntohl (htonl x) = x :=
  byteswap32_involutive x hx

/-! ## Lifecycle lemmas -/

theorem swapRemove_perm {α : Type _} [Inhabited α] (l : List α) (i : Nat)
    (h : i < l.length) :
    List.Perm (l.getD i default :: swapRemove l i) l := by
  have hne : l ≠ [] := List.ne_nil_of_length_pos (by omega)
  obtain ⟨l', b, rfl⟩ : ∃ l' b, l = l' ++ [b] := by
    refine ⟨l.dropLast, l.getLast hne, ?_⟩
    rw [List.dropLast_append_getLast hne]
  have hlast : (l' ++ [b]).getLast? = some b := by
    simp [List.getLast?_append]
  unfold swapRemove
  rw [hlast]
  simp only [List.length_append, List.length_singleton] at h
  rcases Nat.lt_or_ge i l'.length with hi | hi
  · have hset : (l' ++ [b]).set i b = l'.set i b ++ [b] := by
      rw [List.set_append, if_pos hi]
    have hget : (l' ++ [b]).getD i default = l'.getD i default := by
      rw [List.getD_eq_getElem _ _ (by simp; omega), List.getD_eq_getElem _ _ hi,
        List.getElem_append_left hi]
    have htd : l'.set i b = l'.take i ++ b :: l'.drop (i + 1) := by
      rw [List.set_eq_take_append_cons_drop, if_pos hi]
    have hl' : l'.take i ++ l'.getD i default :: l'.drop (i + 1) = l' := by
      conv_rhs => rw [← List.take_append_drop i l']
      rw [List.drop_eq_getElem_cons hi, List.getD_eq_getElem _ _ hi]
    simp only [hset, hget, List.dropLast_concat, htd]
    have p1 : List.Perm
        (l'.getD i default :: (l'.take i ++ b :: l'.drop (i + 1)))
        (l'.getD i default :: (b :: (l'.take i ++ l'.drop (i + 1)))) :=
      List.Perm.cons _ List.perm_middle
    have p2 : List.Perm
        (l'.getD i default :: (b :: (l'.take i ++ l'.drop (i + 1))))
        (b :: (l'.getD i default :: (l'.take i ++ l'.drop (i + 1)))) :=
      List.Perm.swap _ _ _
    have p3 : List.Perm
        (b :: (l'.getD i default :: (l'.take i ++ l'.drop (i + 1))))
        (b :: (l'.take i ++ l'.getD i default :: l'.drop (i + 1))) :=
      List.Perm.cons _ List.perm_middle.symm
    have p4 : List.Perm
        (b :: (l'.take i ++ l'.getD i default :: l'.drop (i + 1)))
        ((l'.take i ++ l'.getD i default :: l'.drop (i + 1)) ++ [b]) :=
      (List.perm_append_singleton _ _).symm
    have hchain := ((p1.trans p2).trans p3).trans p4
    rwa [hl'] at hchain
  · have hieq : i = l'.length := by omega
    subst hieq
    have hset : (l' ++ [b]).set l'.length b = l' ++ [b] := by
      rw [List.set_append, if_neg (by omega)]
      simp
    have hget : (l' ++ [b]).getD l'.length default = b := by
      rw [List.getD_eq_getElem _ _ (by simp)]
      exact List.getElem_concat_length _ _ _ rfl _
    simp only [hset, hget, List.dropLast_concat]
    exact (List.perm_append_singleton _ _).symm

theorem findFlightIdx_spec :
    ∀ (fl : List IoU) (id i : Nat), findFlightIdx fl id = some i →
      i < fl.length ∧ (fl.getD i default).wrId = id := by
  intro fl
  induction fl with
  | nil => intro id i h; simp [findFlightIdx] at h
  | cons u rest ih =>
    intro id i h
    by_cases hu : u.wrId = id
    · simp [findFlightIdx, hu] at h
      subst h
      simpa [List.getD] using hu
    · simp [findFlightIdx, hu] at h
      obtain ⟨j, hj, hji⟩ := h
      obtain ⟨hlt, hget⟩ := ih id j hj
      subst hji
      refine ⟨by simpa using Nat.succ_lt_succ hlt, ?_⟩
      simpa [List.getD] using hget

theorem client_recv_collections (o : ThreadOptions) (rd : LibrpmaioData)
    (wc : IbvWc) :
    (client_recv o rd wc).1.ioUsQueued = rd.ioUsQueued ∧
    (client_recv o rd wc).1.ioUsFlight = rd.ioUsFlight ∧
    (client_recv o rd wc).1.ioUsCompleted = rd.ioUsCompleted := by
  simp only [client_recv]
  split_ifs <;> simp

theorem server_recv_collections (o : ThreadOptions) (rd : LibrpmaioData)
    (wc : IbvWc) :
    (server_recv o rd wc).1.ioUsQueued = rd.ioUsQueued ∧
    (server_recv o rd wc).1.ioUsFlight = rd.ioUsFlight ∧
    (server_recv o rd wc).1.ioUsCompleted = rd.ioUsCompleted := by
  simp only [server_recv]
  split_ifs <;> simp

/-- `lifecycleInv` and `stageOf` only look at the three collections. -/
theorem stage_congr (rd rd' : LibrpmaioData)
    (hq : rd'.ioUsQueued = rd.ioUsQueued)
    (hf : rd'.ioUsFlight = rd.ioUsFlight)
    (hc : rd'.ioUsCompleted = rd.ioUsCompleted) :
    stageOf rd' = stageOf rd ∧ (lifecycleInv rd' ↔ lifecycleInv rd) := by
  constructor
  · funext id
    simp [stageOf, hq, hf, hc]
  · unfold lifecycleInv allIds
    rw [hq, hf, hc]

/-- A state pair whose three collections agree preserves the invariant and
moves no request backward. -/
theorem stage_unchanged (rd rd' : LibrpmaioData)
    (hq : rd'.ioUsQueued = rd.ioUsQueued)
    (hf : rd'.ioUsFlight = rd.ioUsFlight)
    (hc : rd'.ioUsCompleted = rd.ioUsCompleted)
    (hinv : lifecycleInv rd) :
    lifecycleInv rd' ∧
    ∀ id s, stageOf rd id = some s →
      ∃ s', stageOf rd' id = some s' ∧ s ≤ s' := by
  obtain ⟨hst, hiv⟩ := stage_congr rd rd' hq hf hc
  refine ⟨hiv.mpr hinv, fun id s hs => ⟨s, ?_, Nat.le_refl s⟩⟩
  rw [hst]
  exact hs

/-- Moving one matched in-flight request to the completed collection —
swap-remove from in-flight, append (same correlation id, possibly updated
outcome fields) to completed — preserves the invariant; no request moves
backward and the moved one goes from stage 1 to stage 2. -/
theorem stage_move (rd rd' : LibrpmaioData) (i : Nat) (u' : IoU)
    (hi : i < rd.ioUsFlight.length)
    (hid : u'.wrId = (rd.ioUsFlight.getD i default).wrId)
    (hq : rd'.ioUsQueued = rd.ioUsQueued)
    (hf : rd'.ioUsFlight = swapRemove rd.ioUsFlight i)
    (hc : rd'.ioUsCompleted = rd.ioUsCompleted ++ [u'])
    (hinv : lifecycleInv rd) :
    lifecycleInv rd' ∧
    ∀ id s, stageOf rd id = some s →
      ∃ s', stageOf rd' id = some s' ∧ s ≤ s' := by
  set a := (rd.ioUsFlight.getD i default).wrId with ha
  have hperm : List.Perm (a :: wrIds (swapRemove rd.ioUsFlight i))
      (wrIds rd.ioUsFlight) := by
    have hmap := (swapRemove_perm rd.ioUsFlight i hi).map IoU.wrId
    simpa only [wrIds, List.map_cons] using hmap
  have hq' : wrIds rd'.ioUsQueued = wrIds rd.ioUsQueued := by rw [hq]
  have hf' : wrIds rd'.ioUsFlight = wrIds (swapRemove rd.ioUsFlight i) := by rw [hf]
  have hc' : wrIds rd'.ioUsCompleted = wrIds rd.ioUsCompleted ++ [a] := by
    rw [hc]
    simp [wrIds, hid]
  have hpermAll : List.Perm (allIds rd') (allIds rd) := by
    unfold allIds
    rw [hq', hf', hc']
    refine List.Perm.append_left _ ?_
    have h1 : List.Perm
        (wrIds (swapRemove rd.ioUsFlight i) ++ (wrIds rd.ioUsCompleted ++ [a]))
        (a :: (wrIds (swapRemove rd.ioUsFlight i) ++ wrIds rd.ioUsCompleted)) := by
      rw [← List.append_assoc]
      exact List.perm_append_singleton _ _
    have h2 : List.Perm
        (a :: (wrIds (swapRemove rd.ioUsFlight i) ++ wrIds rd.ioUsCompleted))
        (wrIds rd.ioUsFlight ++ wrIds rd.ioUsCompleted) := by
      have hap := hperm.append_right (wrIds rd.ioUsCompleted)
      simpa [List.cons_append] using hap
    exact h1.trans h2
  have hinv0 : (allIds rd).Nodup := hinv
  have hinv' : lifecycleInv rd' := hpermAll.nodup_iff.mpr hinv0
  unfold allIds at hinv0
  rw [List.nodup_append, List.nodup_append] at hinv0
  have hFnodup : (wrIds rd.ioUsFlight).Nodup := hinv0.2.1.1
  have hconsNodup : (a :: wrIds (swapRemove rd.ioUsFlight i)).Nodup :=
    hperm.nodup_iff.mpr hFnodup
  have haF' : a ∉ wrIds (swapRemove rd.ioUsFlight i) :=
    (List.nodup_cons.mp hconsNodup).1
  refine ⟨hinv', ?_⟩
  intro id s hs
  by_cases h0 : id ∈ wrIds rd.ioUsQueued
  · have hs0 : s = 0 := by
      simp [stageOf, h0] at hs
      omega
    exact ⟨0, by simp [stageOf, hq', h0], by omega⟩
  · by_cases h1 : id ∈ wrIds rd.ioUsFlight
    · have hs1 : s = 1 := by
        simp [stageOf, h0, h1] at hs
        omega
      by_cases hae : id = a
      · have hnotF' : id ∉ wrIds (swapRemove rd.ioUsFlight i) := hae ▸ haF'
        have hmemC : id ∈ wrIds rd.ioUsCompleted ++ [a] := by
          rw [hae]
          exact List.mem_append_right _ (List.mem_singleton_self a)
        refine ⟨2, ?_, by omega⟩
        simp [stageOf, hq', hf', hc', h0, hnotF', hmemC]
      · have hidF' : id ∈ wrIds (swapRemove rd.ioUsFlight i) := by
          have hm := hperm.mem_iff.mpr h1
          rcases List.mem_cons.mp hm with hcase | hcase
          · exact absurd hcase hae
          · exact hcase
        exact ⟨1, by simp [stageOf, hq', hf', h0, hidF'], by omega⟩
    · by_cases h2 : id ∈ wrIds rd.ioUsCompleted
      · have hs2 : s = 2 := by
          simp [stageOf, h0, h1, h2] at hs
          omega
        have hnotF' : id ∉ wrIds (swapRemove rd.ioUsFlight i) := fun hmem =>
          h1 (hperm.mem_iff.mp (List.mem_cons_of_mem a hmem))
        have hmemC : id ∈ wrIds rd.ioUsCompleted ++ [a] :=
          List.mem_append_left _ h2
        refine ⟨2, ?_, by omega⟩
        simp [stageOf, hq', hf', hc', h0, hnotF', hmemC]
      · exfalso
        simp [stageOf, h0, h1, h2] at hs

/-- The completion-record dispatch of `client_recv`/`server_recv` never
touches the three request collections. -/
theorem recv_dispatch_collections (o : ThreadOptions) (rd : LibrpmaioData)
    (wc : IbvWc) :
    (if rd.is_client then client_recv o rd wc else server_recv o rd wc).1.ioUsQueued
        = rd.ioUsQueued ∧
    (if rd.is_client then client_recv o rd wc else server_recv o rd wc).1.ioUsFlight
        = rd.ioUsFlight ∧
    (if rd.is_client then client_recv o rd wc else server_recv o rd wc).1.ioUsCompleted
        = rd.ioUsCompleted := by
  cases hcl : rd.is_client
  · simpa [hcl] using server_recv_collections o rd wc
  · simpa [hcl] using client_recv_collections o rd wc

/-- Per completion record, `cq_event_handler` either leaves the three
collections unchanged or moves exactly one in-flight request (by matched
index, keeping its correlation id) to the tail of the completed
collection. -/
theorem handleWc_shape (o : ThreadOptions) (rd : LibrpmaioData) (wc : IbvWc) :
    ((handleWc o rd wc).1.ioUsQueued = rd.ioUsQueued ∧
     (handleWc o rd wc).1.ioUsFlight = rd.ioUsFlight ∧
     (handleWc o rd wc).1.ioUsCompleted = rd.ioUsCompleted) ∨
    (∃ i u', i < rd.ioUsFlight.length ∧
      u'.wrId = (rd.ioUsFlight.getD i default).wrId ∧
      (handleWc o rd wc).1.ioUsQueued = rd.ioUsQueued ∧
      (handleWc o rd wc).1.ioUsFlight = swapRemove rd.ioUsFlight i ∧
      (handleWc o rd wc).1.ioUsCompleted = rd.ioUsCompleted ++ [u']) := by
  obtain ⟨hdq, hdf, hdc⟩ := recv_dispatch_collections o rd wc
  cases hop : wc.opcode with
  | recv =>
    by_cases herr :
        (if rd.is_client then client_recv o rd wc else server_recv o rd wc).2 = true
    · left
      constructor
      · rw [← hdq]; simp [handleWc, hop, herr]
      constructor
      · rw [← hdf]; simp [handleWc, hop, herr]
      · rw [← hdc]; simp [handleWc, hop, herr]
    · by_cases hsent : wc.wr_id = FIO_RDMA_MAX_IO_DEPTH
      · left
        constructor
        · rw [← hdq]; simp [handleWc, hop, herr, hsent]
        constructor
        · rw [← hdf]; simp [handleWc, hop, herr, hsent]
        · rw [← hdc]; simp [handleWc, hop, herr, hsent]
      · cases hfind : findFlightIdx rd.ioUsFlight wc.wr_id with
        | none =>
          have hfind1 : findFlightIdx
              (if rd.is_client then client_recv o rd wc
               else server_recv o rd wc).1.ioUsFlight wc.wr_id = none := by
            rw [hdf]; exact hfind
          left
          constructor
          · rw [← hdq]; simp [handleWc, hop, herr, hsent, hfind1]
          constructor
          · rw [← hdf]; simp [handleWc, hop, herr, hsent, hfind1]
          · rw [← hdc]; simp [handleWc, hop, herr, hsent, hfind1]
        | some i =>
          obtain ⟨hlt, hwr⟩ := findFlightIdx_spec _ _ _ hfind
          have hfind1 : findFlightIdx
              (if rd.is_client then client_recv o rd wc
               else server_recv o rd wc).1.ioUsFlight wc.wr_id = some i := by
            rw [hdf]; exact hfind
          right
          refine ⟨i,
            { rd.ioUsFlight.getD i default with
                resid := ((rd.ioUsFlight.getD i default).buflen + U64_MOD
                            - wc.byte_len) % U64_MOD,
                error := 0 }, hlt, rfl, ?_, ?_, ?_⟩
          · rw [← hdq]; simp [handleWc, hop, herr, hsent, hfind1, hfind, hdf]
          · rw [← hdf]
            simp only [handleWc, hop, herr, hsent, hfind1]
            simp [hdf, hfind]
          · rw [← hdc]
            simp only [handleWc, hop, herr, hsent, hfind1]
            simp [hdf, hfind]
  | send =>
    by_cases hsent : wc.wr_id = FIO_RDMA_MAX_IO_DEPTH
    · left; simp [handleWc, hop, hsent]
    · cases hfind : findFlightIdx rd.ioUsFlight wc.wr_id with
      | none => left; simp [handleWc, hop, hsent, hfind]
      | some i =>
        obtain ⟨hlt, hwr⟩ := findFlightIdx_spec _ _ _ hfind
        right
        exact ⟨i, rd.ioUsFlight.getD i default, hlt, rfl,
          by simp [handleWc, hop, hsent, hfind],
          by simp [handleWc, hop, hsent, hfind],
          by simp [handleWc, hop, hsent, hfind]⟩
  | rdmaWrite =>
    by_cases hsent : wc.wr_id = FIO_RDMA_MAX_IO_DEPTH
    · left; simp [handleWc, hop, hsent]
    · cases hfind : findFlightIdx rd.ioUsFlight wc.wr_id with
      | none => left; simp [handleWc, hop, hsent, hfind]
      | some i =>
        obtain ⟨hlt, hwr⟩ := findFlightIdx_spec _ _ _ hfind
        right
        exact ⟨i, rd.ioUsFlight.getD i default, hlt, rfl,
          by simp [handleWc, hop, hsent, hfind],
          by simp [handleWc, hop, hsent, hfind],
          by simp [handleWc, hop, hsent, hfind]⟩
  | rdmaRead =>
    by_cases hsent : wc.wr_id = FIO_RDMA_MAX_IO_DEPTH
    · left; simp [handleWc, hop, hsent]
    · cases hfind : findFlightIdx rd.ioUsFlight wc.wr_id with
      | none => left; simp [handleWc, hop, hsent, hfind]
      | some i =>
        obtain ⟨hlt, hwr⟩ := findFlightIdx_spec _ _ _ hfind
        right
        exact ⟨i, rd.ioUsFlight.getD i default, hlt, rfl,
          by simp [handleWc, hop, hsent, hfind],
          by simp [handleWc, hop, hsent, hfind],
          by simp [handleWc, hop, hsent, hfind]⟩
  | other =>
    left
    simp [handleWc, hop]

/-- Processing one completion record preserves the lifecycle invariant and
moves no request backward. -/
theorem handleWc_preserves (o : ThreadOptions) (rd : LibrpmaioData) (wc : IbvWc)
    (hinv : lifecycleInv rd) :
    lifecycleInv (handleWc o rd wc).1 ∧
    ∀ id s, stageOf rd id = some s →
      ∃ s', stageOf (handleWc o rd wc).1 id = some s' ∧ s ≤ s' := by
  rcases handleWc_shape o rd wc with ⟨hq, hf, hc⟩ | ⟨i, u', hlt, hwr, hq, hf, hc⟩
  · exact stage_unchanged rd _ hq hf hc hinv
  · exact stage_move rd _ i u' hlt hwr hq hf hc hinv

/-- A whole `cq_event_handler` drain preserves the lifecycle invariant and
moves no request backward. -/
theorem cq_event_handler_preserves (o : ThreadOptions) :
    ∀ (wcs : List IbvWc) (rd : LibrpmaioData) (n : Nat), lifecycleInv rd →
      lifecycleInv (cq_event_handler o rd wcs n).1 ∧
      ∀ id s, stageOf rd id = some s →
        ∃ s', stageOf (cq_event_handler o rd wcs n).1 id = some s' ∧ s ≤ s' := by
  intro wcs
  induction wcs with
  | nil =>
    intro rd n hinv
    exact ⟨by simpa [cq_event_handler] using hinv,
      fun id s hs => ⟨s, by simpa [cq_event_handler] using hs, Nat.le_refl s⟩⟩
  | cons wc rest ih =>
    intro rd n hinv
    by_cases hst : wc.status = 0
    · obtain ⟨hinv1, hmono1⟩ := handleWc_preserves o rd wc hinv
      set rd2 := { (handleWc o rd wc).1 with
                     cq_event_num := (handleWc o rd wc).1.cq_event_num + 1 } with hrd2
      have hcong := stage_congr (handleWc o rd wc).1 rd2 rfl rfl rfl
      have hinv2 : lifecycleInv rd2 := hcong.2.mpr hinv1
      obtain ⟨hinvF, hmonoF⟩ := ih rd2 (n + 1) hinv2
      by_cases herr : (handleWc o rd wc).2 = true
      · constructor
        · simpa [cq_event_handler, hst, herr] using hinv1
        · intro id s hs
          obtain ⟨s1, hs1, hle⟩ := hmono1 id s hs
          exact ⟨s1, by simpa [cq_event_handler, hst, herr] using hs1, hle⟩
      · have hres : (cq_event_handler o rd (wc :: rest) n).1
            = (cq_event_handler o rd2 rest (n + 1)).1 := by
          simp [cq_event_handler, hst, herr, hrd2]
        rw [hres]
        refine ⟨hinvF, fun id s hs => ?_⟩
        obtain ⟨s1, hs1, hle1⟩ := hmono1 id s hs
        have hs1' : stageOf rd2 id = some s1 := by rw [hcong.1]; exact hs1
        obtain ⟨s2, hs2, hle2⟩ := hmonoF id s1 hs1'
        exact ⟨s2, hs2, Nat.le_trans hle1 hle2⟩
    · constructor
      · simpa [cq_event_handler, hst] using hinv
      · exact fun id s hs =>
          ⟨s, by simpa [cq_event_handler, hst] using hs, Nat.le_refl s⟩

/-- `fio_librpmaio_queue` of a fresh request preserves the lifecycle
invariant and moves no request backward (a Busy submit changes nothing; a
Queued submit appends at stage 0). -/
theorem queue_preserves (o : ThreadOptions) (io_u : IoU) (rd : LibrpmaioData)
    (hfresh : io_u.wrId ∉ allIds rd) (hinv : lifecycleInv rd) :
    lifecycleInv (fio_librpmaio_queue o rd io_u).2.1 ∧
    ∀ id s, stageOf rd id = some s →
      ∃ s', stageOf (fio_librpmaio_queue o rd io_u).2.1 id = some s' ∧ s ≤ s' := by
  by_cases hdepth : rd.ioUsQueued.length = o.iodepth
  · have hres : (fio_librpmaio_queue o rd io_u).2.1 = rd := by
      simp [fio_librpmaio_queue, hdepth]
    rw [hres]
    exact stage_unchanged rd rd rfl rfl rfl hinv
  · have hres : (fio_librpmaio_queue o rd io_u).2.1
        = { rd with ioUsQueued := rd.ioUsQueued ++ [io_u] } := by
      by_cases hd : io_u.ddir = DDIR_WRITE <;>
        simp [fio_librpmaio_queue, hdepth, hd]
    rw [hres]
    have hfresh' := hfresh
    simp only [allIds, List.mem_append, not_or] at hfresh'
    obtain ⟨hxQ, hxF, hxC⟩ := hfresh'
    have hql : wrIds (rd.ioUsQueued ++ [io_u])
        = wrIds rd.ioUsQueued ++ [io_u.wrId] := by
      simp [wrIds]
    constructor
    · have hperm : List.Perm
          ((wrIds rd.ioUsQueued ++ [io_u.wrId])
            ++ (wrIds rd.ioUsFlight ++ wrIds rd.ioUsCompleted))
          (io_u.wrId :: allIds rd) := by
        have h1 := (List.perm_append_singleton io_u.wrId
            (wrIds rd.ioUsQueued)).append_right
          (wrIds rd.ioUsFlight ++ wrIds rd.ioUsCompleted)
        unfold allIds
        rw [← List.cons_append]
        exact h1
      have hall : allIds { rd with ioUsQueued := rd.ioUsQueued ++ [io_u] }
          = (wrIds rd.ioUsQueued ++ [io_u.wrId])
            ++ (wrIds rd.ioUsFlight ++ wrIds rd.ioUsCompleted) := by
        simp [allIds, wrIds]
      unfold lifecycleInv
      rw [hall]
      exact hperm.nodup_iff.mpr (List.nodup_cons.mpr ⟨hfresh, hinv⟩)
    · intro id s hs
      by_cases h0 : id ∈ wrIds rd.ioUsQueued
      · have hs0 : s = 0 := by
          simp [stageOf, h0] at hs
          omega
        refine ⟨0, ?_, by omega⟩
        simp only [stageOf, hql]
        rw [if_pos (List.mem_append_left _ h0)]
      · by_cases h1 : id ∈ wrIds rd.ioUsFlight
        · have hs1 : s = 1 := by
            simp [stageOf, h0, h1] at hs
            omega
          have hne : id ≠ io_u.wrId := fun he => hxF (he ▸ h1)
          have hnq : id ∉ wrIds rd.ioUsQueued ++ [io_u.wrId] := by
            intro hmem
            rcases List.mem_append.mp hmem with hcase | hcase
            · exact h0 hcase
            · exact hne (List.mem_singleton.mp hcase)
          refine ⟨1, ?_, by omega⟩
          simp only [stageOf, hql]
          rw [if_neg hnq, if_pos h1]
        · by_cases h2 : id ∈ wrIds rd.ioUsCompleted
          · have hs2 : s = 2 := by
              simp [stageOf, h0, h1, h2] at hs
              omega
            have hne : id ≠ io_u.wrId := fun he => hxC (he ▸ h2)
            have hnq : id ∉ wrIds rd.ioUsQueued ++ [io_u.wrId] := by
              intro hmem
              rcases List.mem_append.mp hmem with hcase | hcase
              · exact h0 hcase
              · exact hne (List.mem_singleton.mp hcase)
            refine ⟨2, ?_, by omega⟩
            simp only [stageOf, hql]
            rw [if_neg hnq, if_neg h1, if_pos h2]
          · exfalso
            simp [stageOf, h0, h1, h2] at hs

theorem commitLoop_eq (q : List IoU) : ∀ f, commitLoop q f = ([], f ++ q) := by
  induction q with
  | nil => intro f; simp [commitLoop]
  | cons a rest ih =>
    intro f
    rw [show commitLoop (a :: rest) f = commitLoop rest (f ++ [a]) from rfl, ih]
    simp

/-- `fio_librpmaio_commit` preserves the lifecycle invariant and moves no
request backward (on the client side the whole queued collection moves to
stage 1; otherwise nothing happens). -/
theorem commit_preserves (rd : LibrpmaioData) (hinv : lifecycleInv rd) :
    lifecycleInv (fio_librpmaio_commit rd).1 ∧
    ∀ id s, stageOf rd id = some s →
      ∃ s', stageOf (fio_librpmaio_commit rd).1 id = some s' ∧ s ≤ s' := by
  cases hcl : rd.is_client
  · have hres : (fio_librpmaio_commit rd).1 = rd := by
      simp [fio_librpmaio_commit, hcl]
    rw [hres]
    exact stage_unchanged rd rd rfl rfl rfl hinv
  · have hres : (fio_librpmaio_commit rd).1
        = { rd with ioUsQueued := [],
                    ioUsFlight := rd.ioUsFlight ++ rd.ioUsQueued } := by
      simp [fio_librpmaio_commit, hcl, commitLoop_eq]
    rw [hres]
    constructor
    · have hperm : List.Perm
          ((wrIds rd.ioUsFlight ++ wrIds rd.ioUsQueued) ++ wrIds rd.ioUsCompleted)
          (allIds rd) := by
        have h1 := (@List.perm_append_comm _ (wrIds rd.ioUsFlight)
          (wrIds rd.ioUsQueued)).append_right (wrIds rd.ioUsCompleted)
        simpa [allIds, List.append_assoc] using h1
      have hall : allIds { rd with ioUsQueued := [],
                                   ioUsFlight := rd.ioUsFlight ++ rd.ioUsQueued }
          = (wrIds rd.ioUsFlight ++ wrIds rd.ioUsQueued) ++ wrIds rd.ioUsCompleted := by
        simp [allIds, wrIds]
      unfold lifecycleInv
      rw [hall]
      exact hperm.nodup_iff.mpr hinv
    · intro id s hs
      have hfl : wrIds (rd.ioUsFlight ++ rd.ioUsQueued)
          = wrIds rd.ioUsFlight ++ wrIds rd.ioUsQueued := by
        simp [wrIds]
      have hnil : (id ∈ wrIds ([] : List IoU)) = False := by
        simp [wrIds]
      by_cases h0 : id ∈ wrIds rd.ioUsQueued
      · have hs0 : s = 0 := by
          simp [stageOf, h0] at hs
          omega
        refine ⟨1, ?_, by omega⟩
        simp only [stageOf, hfl, hnil]
        rw [if_neg (by simp), if_pos (List.mem_append_right _ h0)]
      · by_cases h1 : id ∈ wrIds rd.ioUsFlight
        · have hs1 : s = 1 := by
            simp [stageOf, h0, h1] at hs
            omega
          refine ⟨1, ?_, by omega⟩
          simp only [stageOf, hfl, hnil]
          rw [if_neg (by simp), if_pos (List.mem_append_left _ h1)]
        · by_cases h2 : id ∈ wrIds rd.ioUsCompleted
          · have hs2 : s = 2 := by
              simp [stageOf, h0, h1, h2] at hs
              omega
            have hnm : id ∉ wrIds rd.ioUsFlight ++ wrIds rd.ioUsQueued := by
              intro hmem
              rcases List.mem_append.mp hmem with hcase | hcase
              · exact h1 hcase
              · exact h0 hcase
            refine ⟨2, ?_, by omega⟩
            simp only [stageOf, hfl, hnil]
            rw [if_neg (by simp), if_neg hnm, if_pos h2]
          · exfalso
            simp [stageOf, h0, h1, h2] at hs

/-- `fio_librpmaio_event` (retrieve) preserves the lifecycle invariant; the
retrieved request leaves the engine and every remaining request keeps its
stage. -/
theorem retrieve_preserves (rd rd' : LibrpmaioData) (u : IoU)
    (h : fio_librpmaio_event rd = some (u, rd')) (hinv : lifecycleInv rd) :
    lifecycleInv rd' ∧
    ∀ id s s', stageOf rd id = some s → stageOf rd' id = some s' → s ≤ s' := by
  cases hC : rd.ioUsCompleted with
  | nil =>
    rw [show fio_librpmaio_event rd
      = (match rd.ioUsCompleted with
         | [] => none
         | io_u :: rest => some (io_u, { rd with ioUsCompleted := rest }))
      from rfl, hC] at h
    exact absurd h (by simp)
  | cons u0 rest =>
    have hinvert : rd' = { rd with ioUsCompleted := rest } := by
      rw [show fio_librpmaio_event rd
        = (match rd.ioUsCompleted with
           | [] => none
           | io_u :: rest => some (io_u, { rd with ioUsCompleted := rest }))
        from rfl, hC] at h
      simp at h
      exact h.2.symm
    subst hinvert
    constructor
    · have hsub : List.Sublist (allIds { rd with ioUsCompleted := rest })
          (allIds rd) := by
        simp only [allIds, wrIds, hC, List.map_cons]
        exact List.Sublist.append_left
          (List.Sublist.append_left (List.sublist_cons_self _ _) _) _
      exact List.Nodup.sublist hsub hinv
    · intro id s s' hs hs'
      by_cases h0 : id ∈ wrIds rd.ioUsQueued
      · have hs0 : s = 0 := by
          simp [stageOf, h0] at hs
          omega
        omega
      · by_cases h1 : id ∈ wrIds rd.ioUsFlight
        · have hs1 : s = 1 := by
            simp [stageOf, h0, h1] at hs
            omega
          have hs1' : s' = 1 := by
            simp [stageOf, h0, h1] at hs'
            omega
          omega
        · by_cases h2 : id ∈ wrIds rest
          · have hs2' : s' = 2 := by
              simp [stageOf, h0, h1, h2] at hs'
              omega
            have hmem : id ∈ wrIds rd.ioUsCompleted := by
              simp only [hC, wrIds, List.map_cons]
              exact List.mem_cons_of_mem _ h2
            have hs2 : s = 2 := by
              simp [stageOf, h0, h1, hmem] at hs
              omega
            omega
          · exfalso
            simp [stageOf, h0, h1, h2] at hs'

/-! ## Claim theorems -/

/-- C1: every harness-driven engine operation (submit, commit, completion
processing, retrieve) preserves the invariant that each request — identified
by its correlation id — sits in exactly one of the three collections (no id
occurs twice across or within queued/in-flight/completed), and never moves a
request backward along the lifecycle: with stages queued = 0,
in-flight = 1, completed = 2, any request present before and after a step
has a stage at least as large afterwards.  Requests only leave the engine
through retrieve (from the completed collection). -/
theorem C1_lifecycle_monotone (rd rd' : LibrpmaioData) (hstep : EngineStep rd rd')
    (hinv : lifecycleInv rd) :
    lifecycleInv rd' ∧
    ∀ id s s', stageOf rd id = some s → stageOf rd' id = some s' → s ≤ s' := by
  cases hstep with
  | queue o io_u _ hfresh =>
    obtain ⟨hi, hm⟩ := queue_preserves o io_u rd hfresh hinv
    refine ⟨hi, fun id s s' hs hs' => ?_⟩
    obtain ⟨s1, heq, hle⟩ := hm id s hs
    have hss : s1 = s' := Option.some.inj (heq.symm.trans hs')
    omega
  | commit _ =>
    obtain ⟨hi, hm⟩ := commit_preserves rd hinv
    refine ⟨hi, fun id s s' hs hs' => ?_⟩
    obtain ⟨s1, heq, hle⟩ := hm id s hs
    have hss : s1 = s' := Option.some.inj (heq.symm.trans hs')
    omega
  | poll o wcs n _ =>
    obtain ⟨hi, hm⟩ := cq_event_handler_preserves o wcs rd n hinv
    refine ⟨hi, fun id s s' hs hs' => ?_⟩
    obtain ⟨s1, heq, hle⟩ := hm id s hs
    have hss : s1 = s' := Option.some.inj (heq.symm.trans hs')
    omega
  | retrieve _ _ u h =>
    exact retrieve_preserves rd rd' u h hinv

/-- Witness for C1: a submit step from the empty engine state establishes
the invariant at the new state. -/
theorem C1_lifecycle_monotone_witness :
    lifecycleInv (fio_librpmaio_queue ⟨8, 4096, 4096⟩ baseState
      ⟨1, 1, 1024, 0, 0⟩).2.1 :=
  (C1_lifecycle_monotone baseState _
    (EngineStep.queue ⟨8, 4096, 4096⟩ ⟨1, 1, 1024, 0, 0⟩ baseState (by decide))
    (by unfold lifecycleInv allIds wrIds; decide)).1

/-- C3: when the queued collection holds exactly `iodepth` requests,
`fio_librpmaio_queue` returns `FIO_Q_BUSY` and leaves the whole engine state
(in particular the queued collection's contents and count) unchanged; when
the count is below `iodepth` it returns `FIO_Q_QUEUED` and appends the
request to the queued collection. -/
theorem C3_depth_enforcement (o : ThreadOptions) (rd : LibrpmaioData) (io_u : IoU) :
    (rd.ioUsQueued.length = o.iodepth →
      fio_librpmaio_queue o rd io_u = (.busy, rd, none)) ∧
    (rd.ioUsQueued.length < o.iodepth →
      (fio_librpmaio_queue o rd io_u).1 = .queued ∧
      (fio_librpmaio_queue o rd io_u).2.1.ioUsQueued = rd.ioUsQueued ++ [io_u]) := by
  constructor
  · intro h
    simp [fio_librpmaio_queue, h]
  · intro h
    have hne : rd.ioUsQueued.length ≠ o.iodepth := Nat.ne_of_lt h
    by_cases hd : io_u.ddir = DDIR_WRITE <;>
      simp [fio_librpmaio_queue, hne, hd]

/-- Witness for C3 at a concrete engine state: depth limit 2, both cases. -/
theorem C3_depth_enforcement_witness :
    (fio_librpmaio_queue ⟨2, 4096, 4096⟩
        { ioUsQueued := [⟨1, 1, 1024, 0, 0⟩, ⟨2, 1, 1024, 0, 0⟩], ioUsFlight := [],
          ioUsCompleted := [], dst_offset := 0, is_client := true,
          librpma_protocol := 1, recv_buf := ⟨0, 0, 0, []⟩, send_buf := ⟨0, 0, 0, []⟩,
          rmt_us := [], rmt_nr := 0, cq_event_num := 0 } ⟨3, 1, 1024, 0, 0⟩
      = (.busy,
          { ioUsQueued := [⟨1, 1, 1024, 0, 0⟩, ⟨2, 1, 1024, 0, 0⟩], ioUsFlight := [],
            ioUsCompleted := [], dst_offset := 0, is_client := true,
            librpma_protocol := 1, recv_buf := ⟨0, 0, 0, []⟩, send_buf := ⟨0, 0, 0, []⟩,
            rmt_us := [], rmt_nr := 0, cq_event_num := 0 }, none)) ∧
    ((fio_librpmaio_queue ⟨2, 4096, 4096⟩
        { ioUsQueued := [⟨1, 1, 1024, 0, 0⟩], ioUsFlight := [],
          ioUsCompleted := [], dst_offset := 0, is_client := true,
          librpma_protocol := 1, recv_buf := ⟨0, 0, 0, []⟩, send_buf := ⟨0, 0, 0, []⟩,
          rmt_us := [], rmt_nr := 0, cq_event_num := 0 } ⟨3, 1, 1024, 0, 0⟩).1
      = .queued) :=
  ⟨(C3_depth_enforcement _ _ _).1 (by decide),
   ((C3_depth_enforcement _ _ _).2 (by decide)).1⟩

/-- C7: with a well-sized confirmation message carrying the server's
`max_bs` in network byte order, `client_recv` fails exactly when the
client's configured maximum block size (the larger of the read and write
maxima) exceeds the server's; when it is less than or equal, the check
passes. -/
theorem C7_block_size_guard (o : ThreadOptions) (rd : LibrpmaioData)
    (wc : IbvWc) (server_max : Nat)
    (hsz : wc.byte_len = ctrlMsgSize)
    (hbs : rd.recv_buf.max_bs = htonl server_max)
    (hlt : server_max < 4294967296) :
    (client_recv o rd wc).2 =
      decide (server_max < max o.max_bs_read o.max_bs_write) := by
  have hround : ntohl rd.recv_buf.max_bs = server_max := by
    rw [hbs]; exact ntohl_htonl server_max hlt
  by_cases hgt : max o.max_bs_read o.max_bs_write > server_max
  · simp [client_recv, hsz, hround, hgt]
  · by_cases hp : rd.librpma_protocol = FIO_RDMA_MEM_WRITE ∨
        rd.librpma_protocol = FIO_RDMA_MEM_READ <;>
      simp [client_recv, hsz, hround, hgt, hp]

/-- Witness for C7: client max 8192 against server max 4096 fails;
client max 4096 against server max 4096 passes. -/
theorem C7_block_size_guard_witness :
    ((client_recv ⟨8, 8192, 4096⟩
        { ioUsQueued := [], ioUsFlight := [], ioUsCompleted := [], dst_offset := 0,
          is_client := true, librpma_protocol := 1,
          recv_buf := ⟨0, 0, htonl 4096, []⟩, send_buf := ⟨0, 0, 0, []⟩,
          rmt_us := [], rmt_nr := 0, cq_event_num := 0 }
        ⟨512, .recv, ctrlMsgSize, 0⟩).2 = true) ∧
    ((client_recv ⟨8, 4096, 4096⟩
        { ioUsQueued := [], ioUsFlight := [], ioUsCompleted := [], dst_offset := 0,
          is_client := true, librpma_protocol := 1,
          recv_buf := ⟨0, 0, htonl 4096, []⟩, send_buf := ⟨0, 0, 0, []⟩,
          rmt_us := [], rmt_nr := 0, cq_event_num := 0 }
        ⟨512, .recv, ctrlMsgSize, 0⟩).2 = false) :=
  ⟨by rw [C7_block_size_guard _ _ _ 4096 rfl rfl (by norm_num)]; decide,
   by rw [C7_block_size_guard _ _ _ 4096 rfl rfl (by norm_num)]; decide⟩

/-- C8: a received control message whose payload size differs from
`sizeof(struct librpma_info_blk)` makes `client_recv` fail with the engine
state untouched (nothing is parsed, no handshake-derived state changes), and
the surrounding `cq_event_handler` call aborts with `-1`. -/
theorem C8_ctrl_size_check (o : ThreadOptions) (rd : LibrpmaioData) (wc : IbvWc)
    (rest : List IbvWc) (n : Nat)
    (h : wc.byte_len ≠ ctrlMsgSize)
    (hcl : rd.is_client = true) (hop : wc.opcode = .recv) (hst : wc.status = 0) :
    client_recv o rd wc = (rd, true) ∧
    cq_event_handler o rd (wc :: rest) n = (rd, -1) := by
  have hcr : client_recv o rd wc = (rd, true) := by
    simp [client_recv, h]
  refine ⟨hcr, ?_⟩
  simp [cq_event_handler, hst, handleWc, hop, hcl, hcr]

/-- Witness for C8: a 100-byte payload is rejected and the poll aborts. -/
theorem C8_ctrl_size_check_witness :
    client_recv ⟨8, 4096, 4096⟩
      { ioUsQueued := [], ioUsFlight := [], ioUsCompleted := [], dst_offset := 0,
        is_client := true, librpma_protocol := 1,
        recv_buf := ⟨0, 0, 0, []⟩, send_buf := ⟨0, 0, 0, []⟩,
        rmt_us := [], rmt_nr := 0, cq_event_num := 0 }
      ⟨512, .recv, 100, 0⟩
    = ({ ioUsQueued := [], ioUsFlight := [], ioUsCompleted := [], dst_offset := 0,
         is_client := true, librpma_protocol := 1,
         recv_buf := ⟨0, 0, 0, []⟩, send_buf := ⟨0, 0, 0, []⟩,
         rmt_us := [], rmt_nr := 0, cq_event_num := 0 }, true) :=
  (C8_ctrl_size_check ⟨8, 4096, 4096⟩ _ _ [] 0 (by decide) rfl rfl rfl).1

/-- C9: on a non-empty completed collection, `fio_librpmaio_event` removes and
returns the head (the oldest, FIFO), the remaining entries shift one slot
toward the front, the completed count drops by exactly one, and the queued
and in-flight collections are untouched. -/
theorem C9_retrieve_completed_fifo (rd : LibrpmaioData) (u : IoU) (rest : List IoU)
    (h : rd.ioUsCompleted = u :: rest) :
    ∃ rd', fio_librpmaio_event rd = some (u, rd') ∧
      rd'.ioUsCompleted = rest ∧
      rd'.ioUsQueued = rd.ioUsQueued ∧
      rd'.ioUsFlight = rd.ioUsFlight ∧
      rd'.ioUsCompleted.length + 1 = rd.ioUsCompleted.length := by
  refine ⟨{ rd with ioUsCompleted := rest }, ?_, rfl, rfl, rfl, ?_⟩
  · simp [fio_librpmaio_event, h]
  · simp [h]

/-- Witness for C9 at a two-element completed collection. -/
theorem C9_retrieve_completed_fifo_witness :
    ∃ rd', fio_librpmaio_event
      { ioUsQueued := [], ioUsFlight := [], dst_offset := 0, is_client := true,
        librpma_protocol := 1, recv_buf := ⟨0, 0, 0, []⟩, send_buf := ⟨0, 0, 0, []⟩,
        rmt_us := [], rmt_nr := 0, cq_event_num := 0,
        ioUsCompleted := [⟨1, 1, 1024, 0, 0⟩, ⟨2, 1, 2048, 0, 0⟩] }
      = some (⟨1, 1, 1024, 0, 0⟩, rd') ∧
      rd'.ioUsCompleted = [⟨2, 1, 2048, 0, 0⟩] ∧
      rd'.ioUsQueued = [] ∧
      rd'.ioUsFlight = [] ∧
      rd'.ioUsCompleted.length + 1 = 2 :=
  C9_retrieve_completed_fifo _ ⟨1, 1, 1024, 0, 0⟩ [⟨2, 1, 2048, 0, 0⟩] rfl

/-- C10: `fio_librpmaio_open_file` selects the connection role from the job's
data direction: read jobs take the accepting (responder) path, all other
jobs the connecting (initiator) path. -/
theorem C10_role_from_direction :
    fio_librpmaio_open_file true = .accept ∧
    fio_librpmaio_open_file false = .connect :=
  ⟨rfl, rfl⟩

/-- C2 counterexample: one in-flight request (id 7, error field 0) and two
drained completion records, the first with non-success status 5, the second
a good completion for the same request.  `cq_event_handler` aborts with `-1`
(the poll call fails), the request stays in-flight with its error field
still 0 (no error is attached to it), nothing reaches the completed
collection, and the second record is never processed — contradicting the
claim that the error is attached to the request and the poll continues. -/
theorem C2_status_error_counterexample :
    cq_event_handler ⟨8, 4096, 4096⟩
      { baseState with is_client := true, librpma_protocol := 1,
                       ioUsFlight := [⟨7, 1, 1024, 0, 0⟩] }
      [⟨7, .rdmaWrite, 1024, 5⟩, ⟨7, .rdmaWrite, 1024, 0⟩] 0
    = ({ baseState with is_client := true, librpma_protocol := 1,
                        ioUsFlight := [⟨7, 1, 1024, 0, 0⟩] }, -1) := by
  decide

/-- C2 (amended): a drained completion record with a non-success status makes
`cq_event_handler` abort immediately with `-1` and the engine state exactly
as it was: the error is not attached to any request, no request moves to the
completed collection, and the remaining completion records are not
processed.  (The handler does not tear down the connection; failure is
returned to the polling caller.) -/
theorem C2_status_error_aborts_poll (o : ThreadOptions) (rd : LibrpmaioData)
    (wc : IbvWc) (rest : List IbvWc) (n : Nat) (h : wc.status ≠ 0) :
    cq_event_handler o rd (wc :: rest) n = (rd, -1) := by
  simp [cq_event_handler, h]

/-- Witness for the amended C2 at a concrete non-success completion. -/
theorem C2_status_error_aborts_poll_witness :
    cq_event_handler ⟨8, 4096, 4096⟩ baseState [⟨7, .rdmaWrite, 1024, 11⟩] 0
    = (baseState, -1) :=
  C2_status_error_aborts_poll ⟨8, 4096, 4096⟩ baseState ⟨7, .rdmaWrite, 1024, 11⟩
    [] 0 (by decide)

/-- C4: when a completion record with a matching correlation id is found in
the in-flight collection, the outcome written on the moved request is:
for a receive completion (the read path of the channel semantics) of a
request with declared length `L = buflen` and `byte_len = L - k`, residual
`k` and error `0` (so `byte_len = L` gives residual `0`); for a send or
RDMA-write completion the request is moved with its fields untouched, so a
request the harness handed in with residual `0` reports residual `0`. -/
theorem C4_residual_computation (o : ThreadOptions) (rd : LibrpmaioData)
    (wc : IbvWc) (i : Nat) (u : IoU) (k : Nat)
    (hclient : rd.is_client = false)
    (hid : wc.wr_id ≠ FIO_RDMA_MAX_IO_DEPTH)
    (hfind : findFlightIdx rd.ioUsFlight wc.wr_id = some i)
    (hu : rd.ioUsFlight.getD i default = u)
    (hk : k ≤ u.buflen) (hL : u.buflen < U64_MOD)
    (hbl : wc.byte_len = u.buflen - k) :
    (wc.opcode = .recv →
      (handleWc o rd wc).2 = false ∧
      (handleWc o rd wc).1.ioUsCompleted
        = rd.ioUsCompleted ++ [{ u with resid := k, error := 0 }]) ∧
    ((wc.opcode = .send ∨ wc.opcode = .rdmaWrite) → u.resid = 0 →
      (handleWc o rd wc).2 = false ∧
      (handleWc o rd wc).1.ioUsCompleted = rd.ioUsCompleted ++ [u]) := by
  have harith : (u.buflen + U64_MOD - wc.byte_len) % U64_MOD = k := by
    unfold U64_MOD at *
    omega
  have hu' : rd.ioUsFlight[i]?.getD default = u := by
    simpa [List.getD] using hu
  constructor
  · intro hop
    have hsr : server_recv o rd wc = (rd, false) := by
      simp [server_recv, hid]
    simp [handleWc, hop, hclient, hsr, hid, hfind, hu', harith]
  · rintro (hop | hop) hresid <;>
      simp [handleWc, hop, hid, hfind, hu']

/-- Witness for C4: a receive completion of 1000 of 1024 bytes reports
residual 24 and error 0 (overwriting stale fields), and an RDMA-write
completion of a zero-residual request reports residual 0. -/
theorem C4_residual_computation_witness :
    ((handleWc ⟨8, 4096, 4096⟩
        { baseState with ioUsFlight := [⟨7, 0, 1024, 99, 3⟩] }
        ⟨7, .recv, 1000, 0⟩).1.ioUsCompleted = [⟨7, 0, 1024, 24, 0⟩]) ∧
    ((handleWc ⟨8, 4096, 4096⟩
        { baseState with ioUsFlight := [⟨9, 1, 1024, 0, 0⟩] }
        ⟨9, .rdmaWrite, 1024, 0⟩).1.ioUsCompleted = [⟨9, 1, 1024, 0, 0⟩]) :=
  ⟨((C4_residual_computation ⟨8, 4096, 4096⟩
      { baseState with ioUsFlight := [⟨7, 0, 1024, 99, 3⟩] }
      ⟨7, .recv, 1000, 0⟩ 0 ⟨7, 0, 1024, 99, 3⟩ 24
      rfl (by decide) (by decide) rfl (by decide) (by decide) rfl).1 rfl).2,
   ((C4_residual_computation ⟨8, 4096, 4096⟩
      { baseState with ioUsFlight := [⟨9, 1, 1024, 0, 0⟩] }
      ⟨9, .rdmaWrite, 1024, 0⟩ 0 ⟨9, 1, 1024, 0, 0⟩ 0
      rfl (by decide) (by decide) rfl (by decide) (by decide) rfl).2
      (Or.inr rfl) rfl).2⟩

/-- C5: evaluation at the failing input.  Two successive write requests of
declared length 4096 each make `fio_librpmaio_queue` issue
`rpma_write(conn, recv_mr, dst_offset, send_mr, 0, KILOBYTE, ...)` with the
fixed length `KILOBYTE = 1024 ≠ 4096` and the same destination offset `0`
both times: `dst_offset` is never advanced anywhere in the engine (the
source marks this with the comment "src start point and size, right now is
0 and 1k"). -/
theorem C5_fixed_write_evaluation :
    ((fio_librpmaio_queue ⟨8, 4096, 4096⟩
        { baseState with is_client := true, librpma_protocol := 1 }
        ⟨1, 1, 4096, 0, 0⟩).2.2 = some ⟨0, 0, KILOBYTE⟩) ∧
    ((fio_librpmaio_queue ⟨8, 4096, 4096⟩
        (fio_librpmaio_queue ⟨8, 4096, 4096⟩
          { baseState with is_client := true, librpma_protocol := 1 }
          ⟨1, 1, 4096, 0, 0⟩).2.1
        ⟨2, 1, 4096, 0, 0⟩).2.2 = some ⟨0, 0, KILOBYTE⟩) ∧
    ((fio_librpmaio_queue ⟨8, 4096, 4096⟩
        { baseState with is_client := true, librpma_protocol := 1 }
        ⟨1, 1, 4096, 0, 0⟩).2.1.dst_offset = 0) ∧
    KILOBYTE ≠ 4096 := by
  decide

/-- C6 counterexample: with `iodepth = 4`, the first control message the
initiator sends carries `nr = htonl(td->o.iodepth)` — decoding to 4, not
0 — its `max_bs` field is still the `memset` zero (never assigned), and the
connect path posts no receive work request at all (none exists in the
engine), contradicting the claimed `{mode, max_block}` with `count = 0`
after a posted receive. -/
theorem C6_first_message_counterexample :
    (ntohl (fio_librpmaio_connect ⟨4, 4096, 4096⟩
        { baseState with is_client := true, librpma_protocol := 1 }).1.send_buf.nr
      = 4) ∧
    ((fio_librpmaio_connect ⟨4, 4096, 4096⟩
        { baseState with is_client := true, librpma_protocol := 1 }).1.send_buf.nr
      ≠ 0) ∧
    ((fio_librpmaio_connect ⟨4, 4096, 4096⟩
        { baseState with is_client := true, librpma_protocol := 1 }).1.send_buf.max_bs
      = 0) ∧
    ConnectOp.postRecv ∉ (fio_librpmaio_connect ⟨4, 4096, 4096⟩
        { baseState with is_client := true, librpma_protocol := 1 }).2 := by
  decide

/-- C6 (amended): the initiator's first control message carries its transfer
mode and, in the count field, the configured I/O depth (both in network
byte order); the maximum-block-size field keeps its zero-initialized value;
and the connect sequence posts no control receive buffer — it is
`rdma_connect`, wait-for-established, post-send, wait for the send and then
the receive completion, sleep. -/
theorem C6_first_message_contents (o : ThreadOptions) (rd : LibrpmaioData) :
    (fio_librpmaio_connect o rd).1.send_buf.mode = htonl rd.librpma_protocol ∧
    (fio_librpmaio_connect o rd).1.send_buf.nr = htonl o.iodepth ∧
    (fio_librpmaio_connect o rd).1.send_buf.max_bs = rd.send_buf.max_bs ∧
    (fio_librpmaio_connect o rd).2
      = [.rdmaConnect,
         .postSend { rd.send_buf with mode := htonl rd.librpma_protocol,
                                      nr := htonl o.iodepth },
         .pollWait .send, .pollWait .recv, .sleep] ∧
    ConnectOp.postRecv ∉ (fio_librpmaio_connect o rd).2 := by
  refine ⟨rfl, rfl, rfl, rfl, ?_⟩
  simp [fio_librpmaio_connect]

end LibrpmaClient
